import Mathlib

/-!
Shallow embedding of src/array/sc_array.h (generic growable array, version 2.0.0).

The C header is a family of macros over a struct with fields oom, cap, size and
a heap buffer elems of cap slots.  We model the struct as a record whose elems
field is the full allocated buffer (one list entry per allocated slot; slots at
index at least size hold unobserved junk).  realloc is modelled by a buffer
rewrite that keeps the common prefix and pads fresh slots with a default value;
allocation failure is an explicit boolean oracle passed to the add operation,
and the element width sizeof(T) is an explicit numeric parameter, since the
growth limit _max = SC_ARRAY_MAX / sizeof(T) depends on it.  The target is the
64 bit platform the header is built for, so SIZE_MAX is 2 ^ 64 - 1.
-/

/-- SC_ARRAY_MAX defaults to SIZE_MAX (line 43); the target is 64 bit. -/
def SC_ARRAY_MAX : Nat := 2 ^ 64 - 1

/-- line 83: the local _max, SC_ARRAY_MAX divided by the element width. -/
def sc_array_max (elemSize : Nat) : Nat := SC_ARRAY_MAX / elemSize

/-- line 92: the candidate capacity, 8 from empty, else double. -/
def sc_array_new_cap (cap : Nat) : Nat := if cap = 0 then 8 else cap * 2

/-- The struct of sc_array_def (lines 47-54): oom flag, capacity, size, buffer. -/
structure Arr (T : Type) where
  oom : Bool
  cap : Nat
  size : Nat
  elems : List T
deriving DecidableEq

/-- sc_array_init (lines 59-62): memset to zero, so the empty state. -/
def sc_array_init (T : Type) : Arr T := ⟨false, 0, 0, []⟩

/-- sc_array_term (lines 68-72): free the buffer, then re-init. -/
def sc_array_term {T : Type} (_a : Arr T) : Arr T := ⟨false, 0, 0, []⟩

/-- realloc of the buffer to cap slots (lines 93-94): the common prefix of the
old buffer is preserved, fresh slots are uninitialised (modelled by default). -/
def sc_array_realloc_buf {T : Type} [Inhabited T] (elems : List T) (cap : Nat) : List T :=
  elems.take cap ++ List.replicate (cap - elems.length) default

/-- sc_array_add (lines 81-104).  allocOk is the allocation oracle: false means
realloc returned NULL.  On the two failure paths only oom is written. -/
def sc_array_add {T : Type} [Inhabited T] (elemSize : Nat) (a : Arr T) (k : T)
    (allocOk : Bool) : Arr T :=
  if a.cap = a.size then
    if a.cap > sc_array_max elemSize / 2 then
      { a with oom := true }
    else if allocOk then
      { oom := false, cap := sc_array_new_cap a.cap, size := a.size + 1,
        elems := (sc_array_realloc_buf a.elems (sc_array_new_cap a.cap)).set a.size k }
    else
      { a with oom := true }
  else
    { a with oom := false, size := a.size + 1, elems := a.elems.set a.size k }

/-- sc_array_clear (lines 110-115): cap, size and oom are zeroed, the buffer is
not released. -/
def sc_array_clear {T : Type} (a : Arr T) : Arr T :=
  { a with cap := 0, size := 0, oom := false }

/-- sc_array_del (lines 142-151): memmove the _cnt = size - i - 1 elements after
slot i one slot left (skipped when _cnt is zero), then decrement size. -/
def sc_array_del {T : Type} (a : Arr T) (i : Nat) : Arr T :=
  let cnt := a.size - i - 1
  { a with
    elems :=
      if 0 < cnt then
        a.elems.take i ++ (a.elems.drop (i + 1)).take cnt ++ a.elems.drop (i + cnt)
      else a.elems,
    size := a.size - 1 }

/-- sc_array_del_unordered (lines 163-167): elems[i] = elems[--size]. -/
def sc_array_del_unordered {T : Type} [Inhabited T] (a : Arr T) (i : Nat) : Arr T :=
  { a with elems := a.elems.set i (a.elems.getD (a.size - 1) default),
           size := a.size - 1 }

/-- sc_array_del_last (lines 173-177): decrement size. -/
def sc_array_del_last {T : Type} (a : Arr T) : Arr T :=
  { a with size := a.size - 1 }

/-- sc_array_foreach (lines 196-198): the sequence the loop yields, the first
size buffer slots in index order. -/
def sc_array_foreach {T : Type} (a : Arr T) : List T := a.elems.take a.size

/-- sizeof int on the 64 bit target of the header. -/
def sizeof_int : Nat := 4

/-- The third argument sc_array_sort (line 184) passes to qsort: the expression
is written *(a)->elems, which is the VALUE of the first buffer slot, not
sizeof(*(a)->elems).  Modelled for the int instantiation. -/
def sc_array_sort_size_arg (a : Arr Nat) : Nat := a.elems.headD 0

/-- Repeated add of a list of elements onto a fresh array, allocation always
succeeding, for the int instantiation. -/
def sc_array_addAll (elemSize : Nat) (l : List Nat) : Arr Nat :=
  l.foldl (fun s k => sc_array_add elemSize s k true) (sc_array_init Nat)

/-- States of the int instantiation reachable by the defined operations, each
delete invoked within its documented precondition. -/
inductive Reachable : Arr Nat → Prop
  | init : Reachable (sc_array_init Nat)
  | add (a : Arr Nat) (k : Nat) (ok : Bool) :
      Reachable a → Reachable (sc_array_add sizeof_int a k ok)
  | del (a : Arr Nat) (i : Nat) :
      Reachable a → i < a.size → Reachable (sc_array_del a i)
  | del_u (a : Arr Nat) (i : Nat) :
      Reachable a → i < a.size → Reachable (sc_array_del_unordered a i)
  | del_last (a : Arr Nat) :
      Reachable a → a.size ≠ 0 → Reachable (sc_array_del_last a)
  | clear (a : Arr Nat) :
      Reachable a → Reachable (sc_array_clear a)
  | term (a : Arr Nat) :
      Reachable a → Reachable (sc_array_term a)

/-- As Reachable, but with the clear operation excluded. -/
inductive ReachableNC : Arr Nat → Prop
  | init : ReachableNC (sc_array_init Nat)
  | add (a : Arr Nat) (k : Nat) (ok : Bool) :
      ReachableNC a → ReachableNC (sc_array_add sizeof_int a k ok)
  | del (a : Arr Nat) (i : Nat) :
      ReachableNC a → i < a.size → ReachableNC (sc_array_del a i)
  | del_u (a : Arr Nat) (i : Nat) :
      ReachableNC a → i < a.size → ReachableNC (sc_array_del_unordered a i)
  | del_last (a : Arr Nat) :
      ReachableNC a → a.size ≠ 0 → ReachableNC (sc_array_del_last a)
  | term (a : Arr Nat) :
      ReachableNC a → ReachableNC (sc_array_term a)

/-- C1: append failure atomicity.  Whenever the oom flag is true after an add,
the size, the capacity and the whole buffer (hence every stored element) are
exactly as before the call. -/
theorem sc_array_add_failure_atomic {T : Type} [Inhabited T] (elemSize : Nat)
    (a : Arr T) (k : T) (allocOk : Bool)
    (h : (sc_array_add elemSize a k allocOk).oom = true) :
    (sc_array_add elemSize a k allocOk).size = a.size ∧
    (sc_array_add elemSize a k allocOk).cap = a.cap ∧
    (sc_array_add elemSize a k allocOk).elems = a.elems := by
  unfold sc_array_add at h ⊢
  split_ifs at h ⊢ <;> simp_all

/-- C1 witness: the growth step from capacity 8 to 16 with the allocation
failing leaves size 8, capacity 8 and the contents unchanged. -/
theorem sc_array_add_failure_atomic_witness :
    (sc_array_add 4 (⟨false, 8, 8, [0, 1, 2, 3, 4, 5, 6, 7]⟩ : Arr Nat) 9 false).oom = true ∧
    ((sc_array_add 4 (⟨false, 8, 8, [0, 1, 2, 3, 4, 5, 6, 7]⟩ : Arr Nat) 9 false).size = 8 ∧
     (sc_array_add 4 (⟨false, 8, 8, [0, 1, 2, 3, 4, 5, 6, 7]⟩ : Arr Nat) 9 false).cap = 8 ∧
     (sc_array_add 4 (⟨false, 8, 8, [0, 1, 2, 3, 4, 5, 6, 7]⟩ : Arr Nat) 9 false).elems =
       [0, 1, 2, 3, 4, 5, 6, 7]) :=
  ⟨by decide, sc_array_add_failure_atomic 4 _ 9 false (by decide)⟩

/-- C10: ordered delete at the last valid index writes no buffer slot (the
memmove count is zero) and its result is exactly the result of
sc_array_del_last: size decremented, elems, cap and oom unchanged. -/
theorem sc_array_del_at_last_eq_del_last {T : Type} (a : Arr T) (h : 1 ≤ a.size) :
    (sc_array_del a (a.size - 1)).elems = a.elems ∧
    sc_array_del a (a.size - 1) = sc_array_del_last a := by
  have hcnt : a.size - (a.size - 1) - 1 = 0 := by omega
  unfold sc_array_del sc_array_del_last
  rw [hcnt]
  simp

/-- C10 witness: on a three element array, delete at index 2 equals pop. -/
theorem sc_array_del_at_last_eq_del_last_witness :
    1 ≤ (⟨false, 8, 3, [5, 6, 7, 0, 0, 0, 0, 0]⟩ : Arr Nat).size ∧
    ((sc_array_del (⟨false, 8, 3, [5, 6, 7, 0, 0, 0, 0, 0]⟩ : Arr Nat) 2).elems =
        [5, 6, 7, 0, 0, 0, 0, 0] ∧
      sc_array_del (⟨false, 8, 3, [5, 6, 7, 0, 0, 0, 0, 0]⟩ : Arr Nat) 2 =
        sc_array_del_last (⟨false, 8, 3, [5, 6, 7, 0, 0, 0, 0, 0]⟩ : Arr Nat)) :=
  ⟨by decide, sc_array_del_at_last_eq_del_last _ (by decide)⟩

/-- C3: the sort macro hands qsort the VALUE of the first element as the
element width (the source writes *(a)->elems where sizeof(*(a)->elems) was
meant).  On the int array with contents 3, 1, 2 the width passed is 3, not
sizeof(int) = 4, so qsort permutes 3 byte cells instead of the int elements. -/
theorem sc_array_sort_passes_wrong_width :
    sc_array_sort_size_arg ⟨false, 8, 3, [3, 1, 2, 0, 0, 0, 0, 0]⟩ = 3 ∧
    sizeof_int = 4 ∧
    sc_array_sort_size_arg ⟨false, 8, 3, [3, 1, 2, 0, 0, 0, 0, 0]⟩ ≠ sizeof_int := by
  decide

/-- C6 counterexample: for element width 2 ^ 61 the limit _max is 7, so
capacity 0 passes the growth check (0 ≤ 7 / 2) yet the computed new capacity 8
exceeds _max, and 8 times the element width wraps size_t. -/
theorem sc_array_overflow_guard_counterexample :
    (0 : Nat) ≤ sc_array_max (2 ^ 61) / 2 ∧
    ¬ sc_array_new_cap 0 ≤ sc_array_max (2 ^ 61) ∧
    ¬ sc_array_new_cap 0 * 2 ^ 61 ≤ SC_ARRAY_MAX := by
  refine ⟨Nat.zero_le _, ?_, ?_⟩ <;> decide

/-- C6 amended: for every element width whose limit _max = SC_ARRAY_MAX /
elemSize is at least 8 (true of every instantiation the header declares), any
capacity passing the growth check cap ≤ _max / 2 yields a new capacity at most
_max, hence an allocation byte count that does not wrap size_t; this covers
capacity 0, where the new capacity is 8. -/
theorem sc_array_overflow_guard (elemSize cap : Nat)
    (h8 : 8 ≤ sc_array_max elemSize)
    (hc : cap ≤ sc_array_max elemSize / 2) :
    sc_array_new_cap cap ≤ sc_array_max elemSize ∧
    sc_array_new_cap cap * elemSize ≤ SC_ARRAY_MAX := by
  have h1 : sc_array_new_cap cap ≤ sc_array_max elemSize := by
    unfold sc_array_new_cap
    split <;> omega
  refine ⟨h1, ?_⟩
  calc sc_array_new_cap cap * elemSize
      ≤ sc_array_max elemSize * elemSize := Nat.mul_le_mul_right _ h1
    _ ≤ SC_ARRAY_MAX := Nat.div_mul_le_self _ _

/-- C6 amended witness: element width 4 (int), capacity 0. -/
theorem sc_array_overflow_guard_witness :
    (8 ≤ sc_array_max 4 ∧ 0 ≤ sc_array_max 4 / 2) ∧
    (sc_array_new_cap 0 ≤ sc_array_max 4 ∧ sc_array_new_cap 0 * 4 ≤ SC_ARRAY_MAX) :=
  ⟨⟨by decide, by decide⟩, sc_array_overflow_guard 4 0 (by decide) (by decide)⟩

/-- C2: growth policy.  On a state satisfying the size invariant, an add with
spare room never changes capacity; at full capacity, if cap exceeds _max / 2
the add fails with cap and size unchanged and the oom flag set, and otherwise
a successful allocation yields capacity 8 from capacity 0 and double the
capacity otherwise. -/
theorem sc_array_add_growth_policy {T : Type} [Inhabited T] (elemSize : Nat)
    (a : Arr T) (k : T) (h : a.size ≤ a.cap) :
    (a.size < a.cap → ∀ ok : Bool, (sc_array_add elemSize a k ok).cap = a.cap) ∧
    (a.cap ≤ a.size →
      (sc_array_max elemSize / 2 < a.cap →
        ∀ ok : Bool,
          (sc_array_add elemSize a k ok).cap = a.cap ∧
          (sc_array_add elemSize a k ok).size = a.size ∧
          (sc_array_add elemSize a k ok).oom = true) ∧
      (a.cap ≤ sc_array_max elemSize / 2 →
        (sc_array_add elemSize a k true).cap =
          (if a.cap = 0 then 8 else a.cap * 2))) := by
  refine ⟨?_, ?_⟩
  · intro hlt ok
    unfold sc_array_add
    rw [if_neg (by omega)]
  · intro hge
    have heq : a.cap = a.size := by omega
    refine ⟨?_, ?_⟩
    · intro hmax ok
      unfold sc_array_add
      rw [if_pos heq, if_pos hmax]
      exact ⟨rfl, rfl, rfl⟩
    · intro hmax
      unfold sc_array_add
      rw [if_pos heq, if_neg (by omega), if_pos rfl]
      rfl

/-- C2 witness: first add on a fresh int array grows capacity to 8. -/
theorem sc_array_add_growth_policy_witness :
    (sc_array_init Nat).size ≤ (sc_array_init Nat).cap ∧
    (sc_array_add 4 (sc_array_init Nat) 7 true).cap = 8 := by
  refine ⟨Nat.le_refl _, ?_⟩
  have h :=
    ((sc_array_add_growth_policy 4 (sc_array_init Nat) 7 (Nat.le_refl _)).2
      (Nat.le_refl _)).2 (by decide)
  simpa using h

/-- C5: clear zeroes size, the recorded capacity and the oom flag while keeping
the buffer, and the next add behaves on the growth decision exactly as on a
fresh array: capacity, size and oom after an add on the cleared state equal
those after the same add on the fresh state, and with the allocation
succeeding the first growth yields capacity 8. -/
theorem sc_array_clear_semantics {T : Type} [Inhabited T] (elemSize : Nat)
    (a : Arr T) (k : T) (ok : Bool) :
    (sc_array_clear a).size = 0 ∧
    (sc_array_clear a).cap = 0 ∧
    (sc_array_clear a).oom = false ∧
    (sc_array_clear a).elems = a.elems ∧
    (sc_array_add elemSize (sc_array_clear a) k ok).cap =
      (sc_array_add elemSize (sc_array_init T) k ok).cap ∧
    (sc_array_add elemSize (sc_array_clear a) k ok).size =
      (sc_array_add elemSize (sc_array_init T) k ok).size ∧
    (sc_array_add elemSize (sc_array_clear a) k ok).oom =
      (sc_array_add elemSize (sc_array_init T) k ok).oom ∧
    (sc_array_add elemSize (sc_array_clear a) k true).cap = 8 := by
  refine ⟨rfl, rfl, rfl, rfl, ?_⟩
  unfold sc_array_add sc_array_clear sc_array_init
  simp only [Nat.not_lt_zero, gt_iff_lt, if_neg, if_pos]
  cases ok <;> simp [sc_array_new_cap]

/-- The realloc model always returns a buffer of exactly the requested
slot count. -/
lemma sc_array_realloc_buf_length {T : Type} [Inhabited T] (e : List T) (c : Nat) :
    (sc_array_realloc_buf e c).length = c := by
  unfold sc_array_realloc_buf
  simp only [List.length_append, List.length_take, List.length_replicate]
  omega

/-- Joint structural invariant of every clear-free reachable state: size never
exceeds capacity and the buffer has exactly capacity slots. -/
lemma sc_array_reachableNC_inv (a : Arr Nat) (h : ReachableNC a) :
    a.size ≤ a.cap ∧ a.elems.length = a.cap := by
  induction h with
  | init => exact ⟨Nat.le_refl _, rfl⟩
  | add b k ok _ ih =>
      obtain ⟨ih1, ih2⟩ := ih
      unfold sc_array_add
      split_ifs with h1 h2 h3
      · exact ⟨ih1, ih2⟩
      · refine ⟨?_, ?_⟩
        · simp only
          unfold sc_array_new_cap
          split <;> omega
        · simp only [List.length_set, sc_array_realloc_buf_length]
      · exact ⟨ih1, ih2⟩
      · refine ⟨by simp only; omega, ?_⟩
        simp only [List.length_set]
        omega
  | del b i _ hi ih =>
      obtain ⟨ih1, ih2⟩ := ih
      unfold sc_array_del
      refine ⟨by simp only; omega, ?_⟩
      simp only
      split
      · simp only [List.length_append, List.length_take, List.length_drop]
        omega
      · omega
  | del_u b i _ hi ih =>
      obtain ⟨ih1, ih2⟩ := ih
      unfold sc_array_del_unordered
      refine ⟨by simp only; omega, ?_⟩
      simp only [List.length_set]
      omega
  | del_last b _ hs ih =>
      obtain ⟨ih1, ih2⟩ := ih
      unfold sc_array_del_last
      exact ⟨by show b.size - 1 ≤ b.cap; omega, ih2⟩
  | term b _ ih =>
      exact ⟨Nat.le_refl _, rfl⟩

/-- C4 counterexample: grow a fresh int array by one add, then clear.  The
resulting state is reachable, has capacity 0, yet its buffer still holds the
8 slots of the first growth, so capacity 0 does not imply an absent buffer. -/
theorem sc_array_cap_zero_buffer_counterexample :
    Reachable (sc_array_clear (sc_array_add sizeof_int (sc_array_init Nat) 5 true)) ∧
    (sc_array_clear (sc_array_add sizeof_int (sc_array_init Nat) 5 true)).cap = 0 ∧
    (sc_array_clear (sc_array_add sizeof_int (sc_array_init Nat) 5 true)).elems ≠ [] :=
  ⟨Reachable.clear _ (Reachable.add _ 5 true Reachable.init), by decide, by decide⟩

/-- C4 amended: in every state reachable by init, add, ordered delete,
unordered delete, pop and term, with clear excluded, capacity 0 implies the
buffer is empty.  Clear itself breaks the invariant: it zeroes the recorded
capacity while retaining the buffer. -/
theorem sc_array_cap_zero_no_buffer (a : Arr Nat) (h : ReachableNC a)
    (hc : a.cap = 0) : a.elems = [] := by
  have hinv := sc_array_reachableNC_inv a h
  have hlen : a.elems.length = 0 := by omega
  exact List.eq_nil_of_length_eq_zero hlen

/-- C4 amended witness: the fresh state. -/
theorem sc_array_cap_zero_no_buffer_witness :
    ReachableNC (sc_array_init Nat) ∧ (sc_array_init Nat).cap = 0 ∧
    (sc_array_init Nat).elems = [] :=
  ⟨ReachableNC.init, rfl, sc_array_cap_zero_no_buffer _ ReachableNC.init rfl⟩

/-- C7: ordered delete at a valid index removes exactly the element at that
index: the yielded sequence becomes the first i elements followed by the
elements after index i in their original order, size drops by one and the
capacity is unchanged. -/
theorem sc_array_del_ordered {T : Type} (a : Arr T) (i : Nat)
    (hi : i < a.size) (hs : a.size ≤ a.elems.length) :
    (sc_array_del a i).size = a.size - 1 ∧
    (sc_array_del a i).cap = a.cap ∧
    sc_array_foreach (sc_array_del a i) =
      (sc_array_foreach a).take i ++ (sc_array_foreach a).drop (i + 1) := by
  refine ⟨rfl, rfl, ?_⟩
  unfold sc_array_del sc_array_foreach
  simp only
  have hrhs : (a.elems.take a.size).take i ++ (a.elems.take a.size).drop (i + 1) =
      a.elems.take i ++ (a.elems.drop (i + 1)).take (a.size - (i + 1)) := by
    rw [List.take_take, Nat.min_eq_left (Nat.le_of_lt hi), List.drop_take]
  rw [hrhs]
  by_cases h0 : 0 < a.size - i - 1
  · rw [if_pos h0]
    have hA : (a.elems.take i).length = i := by
      rw [List.length_take]; omega
    have hB : ((a.elems.drop (i + 1)).take (a.size - i - 1)).length = a.size - i - 1 := by
      rw [List.length_take, List.length_drop]; omega
    have hAB : (a.elems.take i ++ (a.elems.drop (i + 1)).take (a.size - i - 1)).length
        = a.size - 1 := by
      rw [List.length_append, hA, hB]; omega
    rw [List.take_append_eq_append_take, hAB, Nat.sub_self, List.take_zero,
        List.append_nil, List.take_of_length_le (Nat.le_of_eq hAB), Nat.sub_sub]
  · rw [if_neg h0]
    have h2 : a.size - (i + 1) = 0 := by omega
    have h1 : i = a.size - 1 := by omega
    rw [h2, List.take_zero, List.append_nil, h1]

/-- C7 witness, scenario C: deleting index 1 of the five element array with
contents 10, 20, 30, 40, 50 yields 10, 30, 40, 50 with size 4. -/
theorem sc_array_del_ordered_witness :
    (1 < (⟨false, 8, 5, [10, 20, 30, 40, 50, 0, 0, 0]⟩ : Arr Nat).size ∧
     (⟨false, 8, 5, [10, 20, 30, 40, 50, 0, 0, 0]⟩ : Arr Nat).size ≤
       (⟨false, 8, 5, [10, 20, 30, 40, 50, 0, 0, 0]⟩ : Arr Nat).elems.length) ∧
    ((sc_array_del (⟨false, 8, 5, [10, 20, 30, 40, 50, 0, 0, 0]⟩ : Arr Nat) 1).size = 4 ∧
     (sc_array_del (⟨false, 8, 5, [10, 20, 30, 40, 50, 0, 0, 0]⟩ : Arr Nat) 1).cap = 8 ∧
     sc_array_foreach (sc_array_del (⟨false, 8, 5, [10, 20, 30, 40, 50, 0, 0, 0]⟩ : Arr Nat) 1) =
       (sc_array_foreach (⟨false, 8, 5, [10, 20, 30, 40, 50, 0, 0, 0]⟩ : Arr Nat)).take 1 ++
         (sc_array_foreach (⟨false, 8, 5, [10, 20, 30, 40, 50, 0, 0, 0]⟩ : Arr Nat)).drop 2) :=
  ⟨⟨by decide, by decide⟩,
    sc_array_del_ordered (⟨false, 8, 5, [10, 20, 30, 40, 50, 0, 0, 0]⟩ : Arr Nat) 1
      (by decide) (by decide)⟩

/-- Writing back the element already at a valid index leaves a list unchanged. -/
lemma list_set_getElem_self {T : Type} (l : List T) (i : Nat) (h : i < l.length) :
    l.set i (l.get ⟨i, h⟩) = l := by
  apply List.ext_getElem
  · simp
  · intro j h1 h2
    rw [List.getElem_set]
    split <;> simp_all

/-- Key list fact behind unordered delete: overwriting slot i with the element
stored at slot n - 1 and then keeping the first n - 1 slots permutes the first
n slots with slot i removed. -/
lemma list_swap_remove_perm {T : Type} (e : List T) (v : T) (n i : Nat)
    (hi : i < n) (hn : n ≤ e.length) (hv : e[n - 1]? = some v) :
    ((e.set i v).take (n - 1)).Perm
      (e.take i ++ (e.drop (i + 1)).take (n - (i + 1))) := by
  by_cases hlast : i = n - 1
  · subst hlast
    have h1 : (e.set (n - 1) v).take (n - 1) = e.take (n - 1) := by
      rw [List.set_take]
      apply List.set_eq_of_length_le
      rw [List.length_take]
      omega
    have h2 : n - (n - 1 + 1) = 0 := by omega
    rw [h1, h2, List.take_zero, List.append_nil]
  · have hi1 : i + 1 < n := by omega
    have hsplit : e.take i ++ (e.drop i).take (n - 1 - i) = e.take (n - 1) := by
      have h3 : i + (n - 1 - i) = n - 1 := by omega
      calc e.take i ++ (e.drop i).take (n - 1 - i)
          = (e.take (n - 1)).take i ++ (e.take (n - 1)).drop i := by
            rw [List.take_take, Nat.min_eq_left (by omega), List.take_drop, h3]
        _ = e.take (n - 1) := List.take_append_drop i _
    have hlhs : (e.set i v).take (n - 1) =
        e.take i ++ v :: (e.drop (i + 1)).take (n - 2 - i) := by
      rw [List.set_take, ← hsplit, List.set_append_right i v
            (by rw [List.length_take]; omega)]
      have h4 : i - (e.take i).length = 0 := by rw [List.length_take]; omega
      have h5 : e.drop i = e.get ⟨i, by omega⟩ :: e.drop (i + 1) := by
        rw [← List.getElem_cons_drop e i (by omega)]
        rfl
      have h6 : n - 1 - i = (n - 2 - i) + 1 := by omega
      rw [h4, h5, h6, List.take_succ_cons, List.set_cons_zero]
    have hrhs : (e.drop (i + 1)).take (n - (i + 1)) =
        (e.drop (i + 1)).take (n - 2 - i) ++ [v] := by
      have h7 : n - (i + 1) = (n - 2 - i) + 1 := by omega
      rw [h7, List.take_succ, List.getElem?_drop,
          show i + 1 + (n - 2 - i) = n - 1 by omega, hv]
      rfl
    rw [hlhs, hrhs]
    exact List.Perm.append_left _ (List.perm_append_singleton v _).symm

/-- C8: unordered delete at a valid index decrements size by one, keeps the
capacity, yields a sequence that is a permutation of the original sequence
with the element at index i removed, puts the former last element into slot i
whenever i was not the last index, and degenerates to a plain pop when i is
the last valid index. -/
theorem sc_array_del_unordered_spec {T : Type} [Inhabited T] (a : Arr T) (i : Nat)
    (hi : i < a.size) (hs : a.size ≤ a.elems.length) :
    (sc_array_del_unordered a i).size = a.size - 1 ∧
    (sc_array_del_unordered a i).cap = a.cap ∧
    (sc_array_foreach (sc_array_del_unordered a i)).Perm
      ((sc_array_foreach a).take i ++ (sc_array_foreach a).drop (i + 1)) ∧
    (i + 1 < a.size →
      (sc_array_foreach (sc_array_del_unordered a i)).getD i default =
        (sc_array_foreach a).getD (a.size - 1) default) ∧
    (i = a.size - 1 → sc_array_del_unordered a i = sc_array_del_last a) := by
  have hn1 : a.size - 1 < a.elems.length := by omega
  have hv : a.elems[a.size - 1]? = some (a.elems.getD (a.size - 1) default) := by
    rw [List.getD_eq_getElem?_getD, List.getElem?_eq_getElem hn1]
    rfl
  refine ⟨rfl, rfl, ?_, ?_, ?_⟩
  · unfold sc_array_del_unordered sc_array_foreach
    simp only
    have hrhs : (a.elems.take a.size).take i ++ (a.elems.take a.size).drop (i + 1) =
        a.elems.take i ++ (a.elems.drop (i + 1)).take (a.size - (i + 1)) := by
      rw [List.take_take, Nat.min_eq_left (Nat.le_of_lt hi), List.drop_take]
    rw [hrhs]
    exact list_swap_remove_perm a.elems _ a.size i hi hs hv
  · intro hi1
    unfold sc_array_del_unordered sc_array_foreach
    simp only [List.getD_eq_getElem?_getD]
    rw [List.getElem?_take_of_lt (show i < a.size - 1 by omega),
        List.getElem?_take_of_lt (show a.size - 1 < a.size by omega),
        List.getElem?_eq_getElem hn1]
    simp only [Option.getD_some]
    rw [List.getElem?_set_self (show i < a.elems.length by omega)]
    rfl
  · intro hl
    unfold sc_array_del_unordered sc_array_del_last
    congr 1
    have h1 : a.elems.getD (a.size - 1) default = a.elems.get ⟨a.size - 1, hn1⟩ := by
      rw [List.getD_eq_getElem?_getD, List.getElem?_eq_getElem hn1]
      rfl
    rw [hl, h1]
    exact list_set_getElem_self _ _ hn1

/-- C8 witness, scenario D: unordered delete at index 1 of the five element
array with contents 11, 22, 33, 44, 55 yields 11, 55, 33, 44 with size 4. -/
theorem sc_array_del_unordered_spec_witness :
    (1 < (⟨false, 8, 5, [11, 22, 33, 44, 55, 0, 0, 0]⟩ : Arr Nat).size ∧
     (⟨false, 8, 5, [11, 22, 33, 44, 55, 0, 0, 0]⟩ : Arr Nat).size ≤
       (⟨false, 8, 5, [11, 22, 33, 44, 55, 0, 0, 0]⟩ : Arr Nat).elems.length) ∧
    ((sc_array_del_unordered (⟨false, 8, 5, [11, 22, 33, 44, 55, 0, 0, 0]⟩ : Arr Nat) 1).size = 4 ∧
     (sc_array_del_unordered (⟨false, 8, 5, [11, 22, 33, 44, 55, 0, 0, 0]⟩ : Arr Nat) 1).cap = 8 ∧
     (sc_array_foreach
        (sc_array_del_unordered (⟨false, 8, 5, [11, 22, 33, 44, 55, 0, 0, 0]⟩ : Arr Nat) 1)).Perm
       ((sc_array_foreach (⟨false, 8, 5, [11, 22, 33, 44, 55, 0, 0, 0]⟩ : Arr Nat)).take 1 ++
        (sc_array_foreach (⟨false, 8, 5, [11, 22, 33, 44, 55, 0, 0, 0]⟩ : Arr Nat)).drop 2) ∧
     (1 + 1 < (⟨false, 8, 5, [11, 22, 33, 44, 55, 0, 0, 0]⟩ : Arr Nat).size →
       (sc_array_foreach
          (sc_array_del_unordered (⟨false, 8, 5, [11, 22, 33, 44, 55, 0, 0, 0]⟩ : Arr Nat) 1)).getD
           1 default =
         (sc_array_foreach (⟨false, 8, 5, [11, 22, 33, 44, 55, 0, 0, 0]⟩ : Arr Nat)).getD
           ((⟨false, 8, 5, [11, 22, 33, 44, 55, 0, 0, 0]⟩ : Arr Nat).size - 1) default) ∧
     (1 = (⟨false, 8, 5, [11, 22, 33, 44, 55, 0, 0, 0]⟩ : Arr Nat).size - 1 →
       sc_array_del_unordered (⟨false, 8, 5, [11, 22, 33, 44, 55, 0, 0, 0]⟩ : Arr Nat) 1 =
         sc_array_del_last (⟨false, 8, 5, [11, 22, 33, 44, 55, 0, 0, 0]⟩ : Arr Nat))) :=
  ⟨⟨by decide, by decide⟩,
    sc_array_del_unordered_spec (⟨false, 8, 5, [11, 22, 33, 44, 55, 0, 0, 0]⟩ : Arr Nat) 1
      (by decide) (by decide)⟩

/-- Setting the slot just past a prefix and taking one slot more appends the
written element to the prefix. -/
lemma list_take_succ_set {T : Type} (B : List T) (n : Nat) (k : T) (h : n < B.length) :
    (B.set n k).take (n + 1) = B.take n ++ [k] := by
  rw [List.take_succ, List.set_take,
      List.set_eq_of_length_le (by rw [List.length_take]; omega),
      List.getElem?_set_self h]
  rfl

/-- With the allocation oracle true, the only way an add can fail is the
overflow refusal at full capacity, which flips oom and changes nothing else. -/
lemma sc_array_add_ok_oom (elemSize : Nat) (s : Arr Nat) (k : Nat)
    (h : (sc_array_add elemSize s k true).oom = true) :
    s.cap = s.size ∧ sc_array_max elemSize / 2 < s.cap ∧
    sc_array_add elemSize s k true = ⟨true, s.cap, s.size, s.elems⟩ := by
  unfold sc_array_add at h ⊢
  split_ifs at h ⊢ with hh1 hh2 hh3
  · exact ⟨hh1, hh2, rfl⟩
  · exact absurd rfl hh3

/-- A state stuck at the overflow refusal absorbs every further add. -/
lemma sc_array_addAll_stuck (elemSize : Nat) (l : List Nat) (c n : Nat) (e : List Nat)
    (h1 : c = n) (h2 : sc_array_max elemSize / 2 < c) :
    l.foldl (fun t k => sc_array_add elemSize t k true) ⟨true, c, n, e⟩ =
      ⟨true, c, n, e⟩ := by
  induction l with
  | nil => rfl
  | cons k l ih =>
      simp only [List.foldl_cons]
      have hstep : sc_array_add elemSize (⟨true, c, n, e⟩ : Arr Nat) k true =
          ⟨true, c, n, e⟩ := by
        unfold sc_array_add
        rw [if_pos h1, if_pos h2]
      rw [hstep, ih]

/-- A successful add preserves the structural invariant and appends the new
element to the yielded sequence. -/
lemma sc_array_add_ok (elemSize : Nat) (s : Arr Nat) (k : Nat)
    (hinv1 : s.size ≤ s.cap) (hinv2 : s.elems.length = s.cap)
    (hoom : (sc_array_add elemSize s k true).oom = false) :
    (sc_array_add elemSize s k true).size ≤ (sc_array_add elemSize s k true).cap ∧
    (sc_array_add elemSize s k true).elems.length = (sc_array_add elemSize s k true).cap ∧
    sc_array_foreach (sc_array_add elemSize s k true) = sc_array_foreach s ++ [k] := by
  unfold sc_array_add at hoom ⊢
  split_ifs at hoom ⊢ with h1 h2 h3
  · have hcnz : s.cap ≤ sc_array_new_cap s.cap ∧ 0 < sc_array_new_cap s.cap ∧
        s.size < sc_array_new_cap s.cap := by
      unfold sc_array_new_cap
      split <;> omega
    have hblen : (sc_array_realloc_buf s.elems (sc_array_new_cap s.cap)).length =
        sc_array_new_cap s.cap := sc_array_realloc_buf_length _ _
    refine ⟨by show s.size + 1 ≤ sc_array_new_cap s.cap; omega, ?_, ?_⟩
    · show ((sc_array_realloc_buf s.elems (sc_array_new_cap s.cap)).set s.size k).length =
        sc_array_new_cap s.cap
      rw [List.length_set, hblen]
    · show ((sc_array_realloc_buf s.elems (sc_array_new_cap s.cap)).set s.size k).take
          (s.size + 1) = sc_array_foreach s ++ [k]
      rw [list_take_succ_set _ _ _ (by omega)]
      have hbtake : (sc_array_realloc_buf s.elems (sc_array_new_cap s.cap)).take s.size =
          s.elems.take s.size := by
        unfold sc_array_realloc_buf
        rw [List.take_append_eq_append_take, List.take_take,
            Nat.min_eq_left (by omega),
            show s.size - (s.elems.take (sc_array_new_cap s.cap)).length = 0 by
              rw [List.length_take]; omega,
            List.take_zero, List.append_nil]
      rw [hbtake]
      rfl
  · have hlt : s.size < s.cap := Nat.lt_of_le_of_ne hinv1 (fun he => h1 he.symm)
    refine ⟨by show s.size + 1 ≤ s.cap; omega, ?_, ?_⟩
    · show (s.elems.set s.size k).length = s.cap
      rw [List.length_set, hinv2]
    · show (s.elems.set s.size k).take (s.size + 1) = sc_array_foreach s ++ [k]
      rw [list_take_succ_set _ _ _ (by omega)]
      rfl

/-- Folding adds over a list, from any state satisfying the invariant: if the
final oom flag is clear, the yielded sequence is the starting sequence with
the whole list appended. -/
lemma sc_array_addAll_go (elemSize : Nat) (l : List Nat) :
    ∀ s : Arr Nat, s.size ≤ s.cap → s.elems.length = s.cap →
      (l.foldl (fun t k => sc_array_add elemSize t k true) s).oom = false →
      sc_array_foreach (l.foldl (fun t k => sc_array_add elemSize t k true) s) =
        sc_array_foreach s ++ l := by
  induction l with
  | nil =>
      intro s _ _ _
      simp
  | cons k l ih =>
      intro s h1 h2 hoom
      simp only [List.foldl_cons] at hoom ⊢
      by_cases ho : (sc_array_add elemSize s k true).oom = true
      · exfalso
        obtain ⟨f1, f2, f3⟩ := sc_array_add_ok_oom elemSize s k ho
        rw [f3, sc_array_addAll_stuck elemSize l s.cap s.size s.elems f1 f2] at hoom
        simp at hoom
      · have hoomf : (sc_array_add elemSize s k true).oom = false := by
          simpa using ho
        obtain ⟨g1, g2, g3⟩ := sc_array_add_ok elemSize s k h1 h2 hoomf
        rw [ih _ g1 g2 hoom, g3]
        simp

/-- C9: round trip.  Appending any list of elements in order onto a fresh int
array with every add succeeding (the final oom flag is false, which rules out
any intermediate failure since a failed add leaves the array stuck at full
capacity) and then iterating yields exactly that list. -/
theorem sc_array_round_trip (l : List Nat)
    (h : (sc_array_addAll sizeof_int l).oom = false) :
    sc_array_foreach (sc_array_addAll sizeof_int l) = l := by
  unfold sc_array_addAll at h ⊢
  have hmain := sc_array_addAll_go sizeof_int l (sc_array_init Nat)
    (Nat.le_refl _) rfl h
  simpa using hmain

/-- C9 witness: the list 1, 2, 3. -/
theorem sc_array_round_trip_witness :
    (sc_array_addAll sizeof_int [1, 2, 3]).oom = false ∧
    sc_array_foreach (sc_array_addAll sizeof_int [1, 2, 3]) = [1, 2, 3] :=
  ⟨by decide, sc_array_round_trip [1, 2, 3] (by decide)⟩
